import Mathlib

/-!
Shallow embedding of the minesweeper rules engine (package `minesweeper`:
`cell.go`, `field.go`, `game.go`).  Go's mutation through pointers is modelled
by explicit state passing: every mutating operation returns the updated value.
Go runtime panics (slice index out of range, method call on a nil interface)
are modelled by an explicit `panicked` outcome.  Machine integers are `Int`
(Go `int`); overflow is irrelevant at the sizes involved.
-/

namespace Minesweeper

/-- Embedding of Go's `state`/`CellState` enumeration from `cell.go`. -/
inductive State where
  | Closed
  | Opened
  | Flagged
  | Exploded
deriving DecidableEq, Repr

open State

/-- Embeds `State.String()` from `cell.go`. -/
def State.toName : State → String
  | Closed => "Closed"
  | Opened => "Opened"
  | Flagged => "Flagged"
  | Exploded => "Exploded"

/-- The package-level error sentinels of `field.go` and `game.go`, modelled as
an enumeration compared by kind (each constructor is one `errors.New` value). -/
inductive Err where
  | openingOpened
  | openingFlagged
  | openingExploded
  | flaggingOpened
  | flaggingFlagged
  | flaggingExploded
  | unflaggingNonFlagged
  | coordinateOutOfRange
  | operatingFinishedGame
deriving DecidableEq, Repr

/-- The concrete `cell` struct of `cell.go`: mutable `state`, immutable
`mine` and `surroundingCnt`. -/
structure Cell where
  state : State
  mine : Bool
  surroundingCnt : Int
deriving DecidableEq, Repr

/-- Embeds the `Result` struct of `field.go`. -/
structure Result where
  NewState : State
deriving DecidableEq, Repr

/-- Embeds the `Coordinate` struct of `field.go`. -/
structure Coordinate where
  X : Int
  Y : Int
deriving DecidableEq, Repr

/-- Embeds `cell.open()` from `cell.go`: legal only from `Closed`; explodes on a
mine, opens otherwise; every other state yields its dedicated error and no
mutation (the error branches of the Go code return before any write). -/
def cellOpen (c : Cell) : Except Err (Result × Cell) :=
  match c.state with
  | Closed =>
    if c.mine then .ok (⟨Exploded⟩, { c with state := Exploded })
    else .ok (⟨Opened⟩, { c with state := Opened })
  | Opened => .error .openingOpened
  | Flagged => .error .openingFlagged
  | Exploded => .error .openingExploded

/-- Embeds `cell.flag()` from `cell.go`. -/
def cellFlag (c : Cell) : Except Err (Result × Cell) :=
  match c.state with
  | Closed => .ok (⟨Flagged⟩, { c with state := Flagged })
  | Opened => .error .flaggingOpened
  | Flagged => .error .flaggingFlagged
  | Exploded => .error .flaggingExploded

/-- Embeds `cell.unflag()` from `cell.go`: `Closed`, `Opened` and `Exploded` all
fail with the single `ErrUnflaggingNonFlaggedCell`. -/
def cellUnflag (c : Cell) : Except Err (Result × Cell) :=
  match c.state with
  | Flagged => .ok (⟨Closed⟩, { c with state := Closed })
  | _ => .error .unflaggingNonFlagged

/-- Go slice read `l[n]` for a `Nat` index: `none` models the
index-out-of-range panic. -/
def listGetN {α : Type} : List α → Nat → Option α
  | [], _ => none
  | a :: _, 0 => some a
  | _ :: l, n + 1 => listGetN l n

/-- Go slice write `l[n] = v` for an in-range `Nat` index (out-of-range
writes are guarded explicitly at every use site, as Go would panic). -/
def listSetN {α : Type} : List α → Nat → α → List α
  | [], _, _ => []
  | _ :: l, 0, v => v :: l
  | a :: l, n + 1, v => a :: listSetN l n v

/-- Go slice read `l[i]` with a Go `int` index: a negative index is an
index-out-of-range panic, modelled as `none`. -/
def listGetI {α : Type} (l : List α) (i : Int) : Option α :=
  if 0 ≤ i then listGetN l i.toNat else none

/-- Go slice write `l[i] = v` with a Go `int` index (callers guard the
panicking cases explicitly). -/
def listSetI {α : Type} (l : List α) (i : Int) (v : α) : List α :=
  if 0 ≤ i then listSetN l i.toNat v else l

/-- The `Field` struct of `field.go`.  `Cells [][]Cell` holds interface
values, so an individual slot may be Go-`nil`: a slot is `Option Cell`
(`none` = nil interface, on which any method call panics), and a row that
was never assigned is the empty list (nil slice). -/
structure Field where
  Width : Int
  Height : Int
  Cells : List (List (Option Cell))
deriving DecidableEq, Repr

/-- Reads the cell slot addressed by `coord`, `none` meaning the row or
column index is out of the actual slice bounds. -/
def Field.cellAt (f : Field) (coord : Coordinate) : Option (Option Cell) :=
  (listGetI f.Cells coord.Y).bind (fun row => listGetI row coord.X)

/-- Embeds `Field.getSurroundingCoordinates` from `field.go`, kept with the
source's guards verbatim — including `x > 1` (not `x > 0`) for the
diagonal-left neighbours of the rows above and below. -/
def Field.getSurroundingCoordinates (f : Field) (coord : Coordinate) : List Coordinate :=
  let x := coord.X
  let y := coord.Y
  (if y > 0 then
    (if x > 1 then [⟨x - 1, y - 1⟩] else []) ++ [⟨x, y - 1⟩] ++
      (if x + 1 < f.Width then [⟨x + 1, y - 1⟩] else [])
  else []) ++
  (if x > 0 then [⟨x - 1, y⟩] else []) ++
  (if x + 1 < f.Width then [⟨x + 1, y⟩] else []) ++
  (if y + 1 < f.Height then
    (if x > 1 then [⟨x - 1, y + 1⟩] else []) ++ [⟨x, y + 1⟩] ++
      (if x + 1 < f.Width then [⟨x + 1, y + 1⟩] else [])
  else [])

/-- Outcome of a field-level operation: `ok` carries the `*Result` and the
updated field, `err` carries the returned error and the (unchanged) field,
`panicked` is a Go runtime panic, and `fuelOut` is the fuel-exhaustion
marker of the fuel-indexed embedding of the recursion (shown unreachable
for sufficient fuel). -/
inductive OpRes where
  | ok (result : Result) (f : Field)
  | err (e : Err) (f : Field)
  | panicked
  | fuelOut
deriving DecidableEq, Repr

/-- Accumulator of the auto-reveal `for` loop inside `Field.Open`. -/
inductive LoopRes where
  | loopOk (f : Field)
  | loopPanic
  | loopFuelOut
deriving DecidableEq, Repr

/-- The auto-reveal `for` loop inside `Field.Open`, parameterized by the
recursive opener: walks the surrounding coordinates in order, re-reads
each target's state from the current field, recurses (`opener`) only on
`Closed` targets, and discards the recursive call's result and error
(Go's `f.Open(c)` with both return values ignored); a panic aborts. -/
def openLoopWith (opener : Field → Coordinate → OpRes) : Field → List Coordinate → LoopRes
  | f, [] => .loopOk f
  | f, cd :: rest =>
    match f.cellAt cd with
    | none => .loopPanic
    | some none => .loopPanic
    | some (some target) =>
      if target.state = Closed then
        match opener f cd with
        | .ok _ f2 => openLoopWith opener f2 rest
        | .err _ f2 => openLoopWith opener f2 rest
        | .panicked => .loopPanic
        | .fuelOut => .loopFuelOut
      else openLoopWith opener f rest

/-- Embeds `Field.Open` from `field.go`, indexed by recursion fuel.  Faithful
points: the bounds check is literally `x+1 > f.Width || y+1 > f.Height`
(negative coordinates pass it and the subsequent slice read panics); an
`Exploded` result returns before the cascade; the cascade runs only when
the origin's `SurroundingCnt()` is 0, over `getSurroundingCoordinates`. -/
def Field.OpenFuel : Nat → Field → Coordinate → OpRes
  | 0, _, _ => .fuelOut
  | fuel + 1, f, coord =>
    let x := coord.X
    let y := coord.Y
    if x + 1 > f.Width ∨ y + 1 > f.Height then .err .coordinateOutOfRange f
    else
      match listGetI f.Cells y with
      | none => .panicked
      | some row =>
        match listGetI row x with
        | none => .panicked
        | some none => .panicked
        | some (some c) =>
          match cellOpen c with
          | .error e => .err e f
          | .ok (result, c1) =>
            let f1 : Field := { f with Cells := listSetI f.Cells y (listSetI row x (some c1)) }
            if result.NewState = Exploded then .ok result f1
            else if c.surroundingCnt = 0 then
              match openLoopWith (Field.OpenFuel fuel) f1 (f1.getSurroundingCoordinates coord) with
              | .loopOk f2 => .ok result f2
              | .loopPanic => .panicked
              | .loopFuelOut => .fuelOut
            else .ok result f1

/-- Whether a cell slot holds a (non-nil) cell in state `s`. -/
def slotIs (s : State) : Option Cell → Bool
  | some c => c.state = s
  | none => false

/-- Number of slots of the grid satisfying `p`. -/
def countGrid (p : Option Cell → Bool) (cells : List (List (Option Cell))) : Nat :=
  (cells.map (fun row => (row.filter p).length)).sum

/-- Counts the `Closed` cells of the grid; this is the termination measure
of the auto-reveal recursion (each recursive call opens a `Closed` cell). -/
def Field.closedCount (f : Field) : Nat := countGrid (slotIs State.Closed) f.Cells

/-- Counts the `Opened` cells of the grid. -/
def Field.openedCount (f : Field) : Nat := countGrid (slotIs State.Opened) f.Cells

/-- What one (sufficiently fuelled) `Field.Open` call guarantees: success
strictly consumes `Closed` cells and never conjures cells that are
`Opened`/`Closed` out of thin air, failure leaves the field untouched, and
the fuel never runs out. -/
def opensProgress (r : OpRes) (f : Field) : Prop :=
  match r with
  | .ok _ f2 => f2.closedCount < f.closedCount ∧
      f2.openedCount + f2.closedCount ≤ f.openedCount + f.closedCount
  | .err _ f2 => f2 = f
  | .panicked => True
  | .fuelOut => False

/-- The corresponding guarantee for the cascade loop. -/
def loopProgress (r : LoopRes) (f : Field) : Prop :=
  match r with
  | .loopOk f2 => f2.closedCount ≤ f.closedCount ∧
      f2.openedCount + f2.closedCount ≤ f.openedCount + f.closedCount
  | .loopPanic => True
  | .loopFuelOut => False

/-- Embeds `Field.Open` from `field.go`: the fuel-indexed recursion run with
provably sufficient fuel (one more than the number of `Closed` cells). -/
def Field.Open (f : Field) (coord : Coordinate) : OpRes :=
  Field.OpenFuel (f.closedCount + 1) f coord

/-- Embeds `Field.Flag` from `field.go`. -/
def Field.Flag (f : Field) (coord : Coordinate) : OpRes :=
  let x := coord.X
  let y := coord.Y
  if x + 1 > f.Width ∨ y + 1 > f.Height then .err .coordinateOutOfRange f
  else
    match listGetI f.Cells y with
    | none => .panicked
    | some row =>
      match listGetI row x with
      | none => .panicked
      | some none => .panicked
      | some (some c) =>
        match cellFlag c with
        | .error e => .err e f
        | .ok (result, c1) =>
          .ok result { f with Cells := listSetI f.Cells y (listSetI row x (some c1)) }

/-- Embeds `Field.Unflag` from `field.go`. -/
def Field.Unflag (f : Field) (coord : Coordinate) : OpRes :=
  let x := coord.X
  let y := coord.Y
  if x + 1 > f.Width ∨ y + 1 > f.Height then .err .coordinateOutOfRange f
  else
    match listGetI f.Cells y with
    | none => .panicked
    | some row =>
      match listGetI row x with
      | none => .panicked
      | some none => .panicked
      | some (some c) =>
        match cellUnflag c with
        | .error e => .err e f
        | .ok (result, c1) =>
          .ok result { f with Cells := listSetI f.Cells y (listSetI row x (some c1)) }

/-- Embeds the `GameState` enumeration from `game.go`. -/
inductive GameState where
  | InProgress
  | Cleared
  | Lost
deriving DecidableEq, Repr

/-- Embeds `GameState.String()` from `game.go`. -/
def GameState.toName : GameState → String
  | .InProgress => "InProgress"
  | .Cleared => "Cleared"
  | .Lost => "Lost"

/-- Embeds the `OpType` enumeration from `game.go`. -/
inductive OpType where
  | Open
  | Flag
  | Unflag
deriving DecidableEq, Repr

/-- The `Game` struct of `game.go`.  The `ui` collaborator is presentation
glue outside the core (spec §1/§6): `Game.Operate` is embedded at the point
after `ui.ParseInput` has produced the `(OpType, Coordinate)` pair. -/
structure Game where
  field : Field
  state : GameState
  quota : Int
  opened : Int
deriving DecidableEq, Repr

/-- Outcome of `Game.Operate`: the updated game, the returned `GameState`
and the returned error (plus panic/fuel markers propagated from the field
layer). -/
inductive OperateRes where
  | ok (g : Game) (s : GameState) (e : Option Err)
  | panicked
  | fuelOut
deriving DecidableEq, Repr

/-- Embeds `Game.Operate` from `game.go`, after input parsing: rejects finished
games, dispatches on the operation type, and for `Open` applies
`handleOpenResult` — `Exploded` sets `Lost`; `Opened` increments `opened`
by one (once per call, whatever the cascade did) and sets `Cleared` exactly
when `quota == opened`; a `nil` result (field error) changes nothing. -/
def Game.Operate (g : Game) (op : OpType) (coord : Coordinate) : OperateRes :=
  if g.state ≠ GameState.InProgress then .ok g g.state (some .operatingFinishedGame)
  else
    match op with
    | .Open =>
      match g.field.Open coord with
      | .ok result f1 =>
        match result.NewState with
        | Exploded => .ok { g with field := f1, state := .Lost } .Lost none
        | Opened =>
          let opened1 := g.opened + 1
          let state1 := if g.quota = opened1 then GameState.Cleared else g.state
          .ok { g with field := f1, opened := opened1, state := state1 } state1 none
        | _ => .panicked
      | .err e f1 => .ok { g with field := f1 } g.state (some e)
      | .panicked => .panicked
      | .fuelOut => .fuelOut
    | .Flag =>
      match g.field.Flag coord with
      | .ok _ f1 => .ok { g with field := f1 } g.state none
      | .err e f1 => .ok { g with field := f1 } g.state (some e)
      | .panicked => .panicked
      | .fuelOut => .fuelOut
    | .Unflag =>
      match g.field.Unflag coord with
      | .ok _ f1 => .ok { g with field := f1 } g.state none
      | .err e f1 => .ok { g with field := f1 } g.state (some e)
      | .panicked => .panicked
      | .fuelOut => .fuelOut

/-- The structured documents produced by `encoding/json` and consumed by
`gjson`: the snapshot wire format at tree level (byte-level JSON printing
and reparsing, which are inverse library operations, are elided). -/
inductive Json where
  | num (n : Int)
  | str (s : String)
  | bool (b : Bool)
  | arr (xs : List Json)
  | obj (kvs : List (String × Json))
  | null

/-- Embeds `gjson.Result.Get(key)` on a parsed document: field lookup, `none`
when the field does not exist (`!value.Exists()`). -/
def jGet (j : Json) (key : String) : Option Json :=
  match j with
  | .obj kvs => (kvs.find? (fun kv => kv.fst = key)).map (fun kv => kv.snd)
  | _ => none

/-- Embeds `gjson.Result.Int()` for the document shapes the snapshot format uses
(numbers; other kinds default as gjson defaults non-numeric values). -/
def jInt : Json → Int
  | .num n => n
  | .bool b => if b then 1 else 0
  | _ => 0

/-- Embeds `gjson.Result.Bool()` for the shapes the snapshot format uses. -/
def jBool : Json → Bool
  | .bool b => b
  | .num n => n ≠ 0
  | .str s => s = "true"
  | _ => false

/-- Embeds `gjson.Result.String()` for the shapes the snapshot format uses
(state names are strings). -/
def jString : Json → String
  | .str s => s
  | _ => ""

/-- Embeds `gjson.Result.Array()`: an array yields its elements, a missing/null
value yields the empty list, any other value yields itself as a
one-element list. -/
def jArray : Json → List Json
  | .arr xs => xs
  | .null => []
  | v => [v]

/-- Decode errors, modelled as an enumeration: each constructor stands for
one distinct error message produced by `Field.UnmarshalJSON`, `Restore`,
`strToState` or `strToGameState`. -/
inductive DecodeError where
  | widthMissing
  | heightMissing
  | cellsMissing
  | cellStateMissing
  | hasMineMissing
  | surroundingCountMissing
  | unknownCellState
  | gameStateMissing
  | unknownGameState
  | quotaMissing
  | openedMissing
  | fieldMissing
  | fieldDecodeFailed (inner : DecodeError)
deriving DecidableEq, Repr

/-- Outcome of a decode: success, a returned error, or a Go runtime panic
(index out of range on a dimension mismatch). -/
inductive DecRes (α : Type) where
  | ok (a : α)
  | err (e : DecodeError)
  | panicked
deriving DecidableEq, Repr

/-- Embeds `strToState` from `cell.go`: parses a cell-state name. -/
def strToState (s : String) : DecRes State :=
  if s = "Closed" then .ok Closed
  else if s = "Opened" then .ok Opened
  else if s = "Flagged" then .ok Flagged
  else if s = "Exploded" then .ok Exploded
  else .err .unknownCellState

/-- Embeds `strToGameState` from `game.go`. -/
def strToGameState (s : String) : DecRes GameState :=
  if s = "InProgress" then .ok .InProgress
  else if s = "Cleared" then .ok .Cleared
  else if s = "Lost" then .ok .Lost
  else .err .unknownGameState

/-- The per-cell JSON object written by `Field.MarshalJSON`. -/
def cellToJson (c : Cell) : Json :=
  .obj [("state", .str c.state.toName), ("has_mine", .bool c.mine),
        ("surrounding_count", .num c.surroundingCnt)]

/-- The inner marshal loop over one row's cell slots: a Go-`nil` slot
panics when its methods are called (`none` aborts). -/
def rowToJsonCells : List (Option Cell) → Option (List Json)
  | [] => some []
  | none :: _ => none
  | some c :: rest => (rowToJsonCells rest).map (fun js => cellToJson c :: js)

/-- One row of `Field.MarshalJSON`'s `cells` value: the Go code builds each
row by appending to a `nil` slice, so an empty source row marshals as JSON
`null`. -/
def rowToJson (row : List (Option Cell)) : Option Json :=
  match rowToJsonCells row with
  | none => none
  | some [] => some .null
  | some js => some (.arr js)

/-- The outer marshal loop over the rows. -/
def rowsToJson : List (List (Option Cell)) → Option (List Json)
  | [] => some []
  | row :: rest =>
    match rowToJson row with
    | none => none
    | some j => (rowsToJson rest).map (fun js => j :: js)

/-- Embeds `Field.MarshalJSON` from `field.go`: `cells` is sized from `f.Height`
(`make`), so more actual rows than `Height` or a negative `Height` panics,
and missing trailing rows marshal as `null` (never-assigned slots). -/
def Field.MarshalJSON (f : Field) : Option Json :=
  if f.Height < 0 then none
  else if f.Height.toNat < f.Cells.length then none
  else
    match rowsToJson f.Cells with
    | none => none
    | some rows =>
      some (.obj [("width", .num f.Width), ("height", .num f.Height),
        ("cells", .arr (rows ++ List.replicate (f.Height.toNat - f.Cells.length) .null))])

/-- The inner loop of `Field.UnmarshalJSON` over one row's cell objects:
checks `state`, `has_mine`, `surrounding_count` existence in that order,
then converts the state name; the write `cells[ii] = &cell{...}` panics
when `ii` reaches the declared width. -/
def rowLoop (width : Int) : Nat → List Json → List (Option Cell) → DecRes (List (Option Cell))
  | _, [], cells => .ok cells
  | ii, cj :: rest, cells =>
    match jGet cj "state" with
    | none => .err .cellStateMissing
    | some sv =>
      match jGet cj "has_mine" with
      | none => .err .hasMineMissing
      | some mv =>
        match jGet cj "surrounding_count" with
        | none => .err .surroundingCountMissing
        | some cntv =>
          match strToState (jString sv) with
          | .err e => .err e
          | .panicked => .panicked
          | .ok st =>
            if ii < width.toNat then
              rowLoop width (ii + 1) rest (listSetN cells ii (some ⟨st, jBool mv, jInt cntv⟩))
            else .panicked

/-- The outer loop of `Field.UnmarshalJSON` over the rows of `cells`: each
iteration allocates `make([]Cell, f.Width)` (panics on negative width),
decodes the row, and assigns `f.Cells[i] = cells` (panics when `i` reaches
the declared height). -/
def cellsLoop (width height : Int) : Nat → List Json → List (List (Option Cell)) →
    DecRes (List (List (Option Cell)))
  | _, [], acc => .ok acc
  | i, rj :: rest, acc =>
    if width < 0 then .panicked
    else
      match rowLoop width 0 (jArray rj) (List.replicate width.toNat none) with
      | .err e => .err e
      | .panicked => .panicked
      | .ok cells =>
        if i < height.toNat then cellsLoop width height (i + 1) rest (listSetN acc i cells)
        else .panicked

/-- Embeds `Field.UnmarshalJSON` from `field.go`: requires `width`, `height` and
`cells` to exist, allocates `make([][]Cell, f.Height)` (all rows `nil`),
then runs the row loop.  No check relates the `cells` array's dimensions
to the declared `width`/`height`. -/
def Field.UnmarshalJSON (j : Json) : DecRes Field :=
  match jGet j "width" with
  | none => .err .widthMissing
  | some wv =>
    let width := jInt wv
    match jGet j "height" with
    | none => .err .heightMissing
    | some hv =>
      let height := jInt hv
      match jGet j "cells" with
      | none => .err .cellsMissing
      | some cv =>
        if height < 0 then .panicked
        else
          match cellsLoop width height 0 (jArray cv) (List.replicate height.toNat []) with
          | .err e => .err e
          | .panicked => .panicked
          | .ok cells => .ok ⟨width, height, cells⟩

/-- Embeds `Game.Save` from `game.go`: marshals `{field, state, quota, opened}`,
the game state by name. -/
def Game.Save (g : Game) : Option Json :=
  match g.field.MarshalJSON with
  | none => none
  | some fj =>
    some (.obj [("field", fj), ("state", .str g.state.toName),
      ("quota", .num g.quota), ("opened", .num g.opened)])

/-- Embeds `Restore` from `game.go`: requires `state` (with a recognized name),
`quota`, `opened` and `field` in that order, then decodes the nested field
document (whose error is wrapped in a "failed to construct Field" message,
modelled by `fieldDecodeFailed`). -/
def Restore (j : Json) : DecRes Game :=
  match jGet j "state" with
  | none => .err .gameStateMissing
  | some sv =>
    match strToGameState (jString sv) with
    | .err e => .err e
    | .panicked => .panicked
    | .ok st =>
      match jGet j "quota" with
      | none => .err .quotaMissing
      | some qv =>
        match jGet j "opened" with
        | none => .err .openedMissing
        | some ov =>
          match jGet j "field" with
          | none => .err .fieldMissing
          | some fv =>
            match Field.UnmarshalJSON fv with
            | .err e => .err (.fieldDecodeFailed e)
            | .panicked => .panicked
            | .ok fld => .ok ⟨fld, st, jInt qv, jInt ov⟩

/-- Well-formedness of a field value as established by `NewField` and
maintained by every operation: declared dimensions are non-negative and
agree with the actual grid, and no cell slot is Go-`nil`. -/
def Field.wellFormed (f : Field) : Prop :=
  0 ≤ f.Width ∧ 0 ≤ f.Height ∧ f.Cells.length = f.Height.toNat ∧
    ∀ row ∈ f.Cells, row.length = f.Width.toNat ∧ ∀ oc ∈ row, oc ≠ none

instance (f : Field) : Decidable f.wellFormed := by
  unfold Field.wellFormed
  infer_instance

/-- A 2×4 field with its only mine at (0,0) and the player's flag at
(0,2); all `surroundingCnt` values are the true neighbour-mine counts.
Concrete input for the auto-reveal claims. -/
def fieldDiagSkip : Field :=
  ⟨2, 4,
   [[some ⟨State.Closed, true, 0⟩, some ⟨State.Closed, false, 1⟩],
    [some ⟨State.Closed, false, 1⟩, some ⟨State.Closed, false, 1⟩],
    [some ⟨State.Flagged, false, 0⟩, some ⟨State.Closed, false, 0⟩],
    [some ⟨State.Closed, false, 0⟩, some ⟨State.Closed, false, 0⟩]]⟩

/-- A 3×1 field with its only mine at (0,0): opening (2,0) cascades into
(1,0).  Concrete input for the opened-counter claim. -/
def fieldRowCascade : Field :=
  ⟨3, 1, [[some ⟨State.Closed, true, 0⟩, some ⟨State.Closed, false, 1⟩,
    some ⟨State.Closed, false, 0⟩]]⟩

/-- The in-progress game on `fieldRowCascade`, as `NewGame` would build it:
`quota = width*height - mineCnt = 2`, `opened = 0`. -/
def gameRowCascade : Game := ⟨fieldRowCascade, .InProgress, 2, 0⟩

/-- A 1×1 mine-free field.  Concrete input for the out-of-range claims. -/
def fieldUnit : Field := ⟨1, 1, [[some ⟨State.Closed, false, 0⟩]]⟩

/-- The grid `Field.Open fieldDiagSkip ⟨1, 2⟩` actually produces: the
cascade from the zero-count origin (1,2) opens (1,1), (1,3) and (0,3), but
never reaches the origin's diagonal neighbour (0,1), because
`getSurroundingCoordinates` guards the diagonal-left columns with `x > 1`
instead of `x > 0`. -/
def fieldDiagSkipOpened : Field :=
  ⟨2, 4,
   [[some ⟨State.Closed, true, 0⟩, some ⟨State.Closed, false, 1⟩],
    [some ⟨State.Closed, false, 1⟩, some ⟨State.Opened, false, 1⟩],
    [some ⟨State.Flagged, false, 0⟩, some ⟨State.Opened, false, 0⟩],
    [some ⟨State.Opened, false, 0⟩, some ⟨State.Opened, false, 0⟩]]⟩

/-- State of `gameRowCascade` after `Operate(Open (2,0))`: the cascade
opened both mine-free cells, yet `opened` grew by one only. -/
def gameRowCascadeDone : Game :=
  ⟨⟨3, 1, [[some ⟨State.Closed, true, 0⟩, some ⟨State.Opened, false, 1⟩,
    some ⟨State.Opened, false, 0⟩]]⟩, .InProgress, 2, 1⟩

/-- A 1×1 field whose single cell hides a mine. -/
def fieldUnitMine : Field := ⟨1, 1, [[some ⟨State.Closed, true, 0⟩]]⟩

/-- The partially played 2×2 game of the repository's save test: one cell
opened, one mine, `quota = 1`, `opened = 1`. -/
def gameSnapshot : Game :=
  ⟨⟨2, 2, [[some ⟨State.Opened, false, 1⟩, some ⟨State.Closed, false, 1⟩],
    [some ⟨State.Closed, true, 0⟩, some ⟨State.Closed, false, 1⟩]]⟩, .InProgress, 1, 1⟩

/-- The spec's restore example document with its `quota` field removed. -/
def jsonMissingQuota : Json :=
  .obj [("state", .str "InProgress"), ("opened", .num 0),
    ("field", .obj [("width", .num 1), ("height", .num 1),
      ("cells", .arr [.arr [.obj [("state", .str "Closed"), ("has_mine", .bool false),
        ("surrounding_count", .num 0)]]])])]

/-- A field document declaring `height` 3 whose `cells` array has one row. -/
def jsonShortRows : Json :=
  .obj [("width", .num 2), ("height", .num 3),
    ("cells", .arr [.arr [cellToJson ⟨State.Opened, false, 1⟩,
      cellToJson ⟨State.Closed, true, 0⟩]])]

end Minesweeper

namespace Minesweeper

/-! ## Lemmas about the slice model -/

theorem listSetN_length {α : Type} (l : List α) (n : Nat) (v : α) :
    (listSetN l n v).length = l.length := by
  induction l generalizing n with
  | nil => rfl
  | cons a l ih =>
    cases n with
    | zero => rfl
    | succ m => simpa [listSetN] using ih m

theorem listGetN_lt {α : Type} {l : List α} {n : Nat} {a : α}
    (h : listGetN l n = some a) : n < l.length := by
  induction l generalizing n with
  | nil => simp [listGetN] at h
  | cons b l ih =>
    cases n with
    | zero => simp
    | succ m => simpa [Nat.succ_lt_succ_iff] using ih (by simpa [listGetN] using h)

theorem listGetN_setN_self {α : Type} {l : List α} {n : Nat} (v : α)
    (h : n < l.length) : listGetN (listSetN l n v) n = some v := by
  induction l generalizing n with
  | nil => simp at h
  | cons a l ih =>
    cases n with
    | zero => rfl
    | succ m => simpa [listSetN, listGetN] using ih (by simpa using h)

theorem listGetN_setN_ne {α : Type} {l : List α} {n m : Nat} (v : α)
    (h : n ≠ m) : listGetN (listSetN l n v) m = listGetN l m := by
  induction l generalizing n m with
  | nil => rfl
  | cons a l ih =>
    cases n with
    | zero =>
      cases m with
      | zero => exact absurd rfl h
      | succ k => rfl
    | succ n' =>
      cases m with
      | zero => rfl
      | succ k => simpa [listSetN, listGetN] using ih (fun hh => h (by simp [hh]))

theorem listSetN_setN {α : Type} (l : List α) (n : Nat) (v w : α) :
    listSetN (listSetN l n v) n w = listSetN l n w := by
  induction l generalizing n with
  | nil => rfl
  | cons a l ih =>
    cases n with
    | zero => rfl
    | succ m => simp [listSetN, ih]

theorem listSetN_getN_self {α : Type} {l : List α} {n : Nat} {a : α}
    (h : listGetN l n = some a) : listSetN l n a = l := by
  induction l generalizing n with
  | nil => rfl
  | cons b l ih =>
    cases n with
    | zero => simp [listGetN] at h; simp [listSetN, h]
    | succ m => simp [listGetN] at h; simp [listSetN, ih h]

theorem listGetI_setI_self {α : Type} {l : List α} {i : Int} (v : α)
    (hi : 0 ≤ i) (h : i.toNat < l.length) :
    listGetI (listSetI l i v) i = some v := by
  simp [listGetI, listSetI, hi, listGetN_setN_self v h]

theorem listGetI_setI_ne {α : Type} {l : List α} {i j : Int} (v : α)
    (h : i ≠ j) : listGetI (listSetI l i v) j = listGetI l j := by
  by_cases hi : 0 ≤ i
  · by_cases hj : 0 ≤ j
    · have : i.toNat ≠ j.toNat := by omega
      simp [listGetI, listSetI, hi, hj, listGetN_setN_ne v this]
    · simp [listGetI, hj]
  · simp [listSetI, hi]

theorem listSetI_setI {α : Type} (l : List α) (i : Int) (v w : α) :
    listSetI (listSetI l i v) i w = listSetI l i w := by
  by_cases hi : 0 ≤ i
  · simp [listSetI, hi, listSetN_setN]
  · simp [listSetI, hi]

theorem listSetI_getI_self {α : Type} {l : List α} {i : Int} {a : α}
    (h : listGetI l i = some a) : listSetI l i a = l := by
  by_cases hi : 0 ≤ i
  · simp [listGetI, hi] at h
    simp [listSetI, hi, listSetN_getN_self h]
  · simp [listGetI, hi] at h

theorem listGetN_append_right {α : Type} (l1 l2 : List α) {k : Nat}
    (h : l1.length ≤ k) : listGetN (l1 ++ l2) k = listGetN l2 (k - l1.length) := by
  induction l1 generalizing k with
  | nil => simp
  | cons a l1 ih =>
    cases k with
    | zero => simp at h
    | succ m => simpa [listGetN] using ih (by simpa using h)

theorem listGetN_replicate {α : Type} {a : α} {m t : Nat} (h : t < m) :
    listGetN (List.replicate m a) t = some a := by
  induction t generalizing m with
  | zero =>
    cases m with
    | zero => omega
    | succ n => rfl
  | succ k ih =>
    cases m with
    | zero => omega
    | succ n => simpa [List.replicate_succ, listGetN] using ih (by omega)

theorem listGetI_lt {α : Type} {l : List α} {i : Int} {a : α}
    (h : listGetI l i = some a) : 0 ≤ i ∧ i.toNat < l.length := by
  by_cases hi : 0 ≤ i
  · simp [listGetI, hi] at h
    exact ⟨hi, listGetN_lt h⟩
  · simp [listGetI, hi] at h

/-! ## Counting lemmas for the cascade's termination measure -/

theorem filterLen_setN {α : Type} (p : α → Bool) {l : List α} {n : Nat} {a : α} (v : α)
    (h : listGetN l n = some a) :
    ((listSetN l n v).filter p).length + (if p a then 1 else 0) =
      (l.filter p).length + (if p v then 1 else 0) := by
  induction l generalizing n with
  | nil => simp [listGetN] at h
  | cons b l ih =>
    cases n with
    | zero =>
      simp only [listGetN, Option.some.injEq] at h
      subst h
      cases hpb : p b <;> cases hpv : p v <;>
        simp [listSetN, List.filter_cons, hpb, hpv]
    | succ m =>
      simp only [listGetN] at h
      have := ih (n := m) h
      cases hpb : p b <;> simp [listSetN, List.filter_cons, hpb] <;> omega

theorem countGrid_setN (p : Option Cell → Bool) {cells : List (List (Option Cell))}
    {y : Nat} {row : List (Option Cell)} (r2 : List (Option Cell))
    (h : listGetN cells y = some row) :
    countGrid p (listSetN cells y r2) + (row.filter p).length =
      countGrid p cells + (r2.filter p).length := by
  induction cells generalizing y with
  | nil => simp [listGetN] at h
  | cons b cells ih =>
    cases y with
    | zero =>
      simp [listGetN] at h
      subst h
      simp [listSetN, countGrid]
      omega
    | succ m =>
      simp only [listGetN] at h
      have := ih (y := m) h
      simp only [listSetN, countGrid, List.map_cons, List.sum_cons] at this ⊢
      omega

/-- The effect on the counts of writing `some c1` over the slot that held
`some c`, with `Int` coordinates as in the source. -/
theorem countGrid_update (p : Option Cell → Bool)
    {cells : List (List (Option Cell))} {y x : Int}
    {row : List (Option Cell)} {oc : Option Cell} (v : Option Cell)
    (hrow : listGetI cells y = some row) (hc : listGetI row x = some oc) :
    countGrid p (listSetI cells y (listSetI row x v)) + (if p oc then 1 else 0) =
      countGrid p cells + (if p v then 1 else 0) := by
  obtain ⟨hy0, _⟩ := listGetI_lt hrow
  obtain ⟨hx0, _⟩ := listGetI_lt hc
  simp [listGetI, hy0, hx0] at hrow hc
  have h1 := filterLen_setN p v hc
  have h2 := countGrid_setN p (listSetN row x.toNat v) hrow
  simp [listSetI, hy0, hx0]
  omega

theorem filterLen_pos {α : Type} (p : α → Bool) {l : List α} {n : Nat} {a : α}
    (h : listGetN l n = some a) (hp : p a = true) : 0 < (l.filter p).length := by
  induction l generalizing n with
  | nil => simp [listGetN] at h
  | cons b l ih =>
    cases n with
    | zero =>
      simp [listGetN] at h
      subst h
      simp [List.filter_cons, hp]
    | succ m =>
      simp only [listGetN] at h
      have := ih h
      cases hpb : p b <;> simp [List.filter_cons, hpb] <;> omega

/-- A successful `cell.open()` came from a `Closed` cell and moved it to
`Opened` or `Exploded`. -/
theorem cellOpen_ok {c : Cell} {r : Result} {c1 : Cell}
    (h : cellOpen c = .ok (r, c1)) :
    c.state = State.Closed ∧
      ((c1 = { c with state := State.Opened } ∧ r = ⟨State.Opened⟩) ∨
       (c1 = { c with state := State.Exploded } ∧ r = ⟨State.Exploded⟩)) := by
  cases hs : c.state <;> cases hm : c.mine <;>
    simp [cellOpen, hs, hm] at h <;> simp_all

/-- Unfolding equation for the cons case of the cascade loop. -/
theorem openLoopWith_cons (opener : Field → Coordinate → OpRes) (f : Field)
    (cd : Coordinate) (rest : List Coordinate) :
    openLoopWith opener f (cd :: rest) =
      (match f.cellAt cd with
      | none => .loopPanic
      | some none => .loopPanic
      | some (some target) =>
        if target.state = State.Closed then
          match opener f cd with
          | .ok _ f2 => openLoopWith opener f2 rest
          | .err _ f2 => openLoopWith opener f2 rest
          | .panicked => .loopPanic
          | .fuelOut => .loopFuelOut
        else openLoopWith opener f rest) := rfl

/-- Unfolding equation for `Field.OpenFuel` at positive fuel (the `let`
for the updated field is inlined). -/
theorem openFuel_succ (fuel : Nat) (f : Field) (coord : Coordinate) :
    Field.OpenFuel (fuel + 1) f coord =
      (if coord.X + 1 > f.Width ∨ coord.Y + 1 > f.Height then .err .coordinateOutOfRange f
      else
        match listGetI f.Cells coord.Y with
        | none => .panicked
        | some row =>
          match listGetI row coord.X with
          | none => .panicked
          | some none => .panicked
          | some (some c) =>
            match cellOpen c with
            | .error e => .err e f
            | .ok (result, c1) =>
              if result.NewState = State.Exploded then
                .ok result { f with
                  Cells := listSetI f.Cells coord.Y (listSetI row coord.X (some c1)) }
              else if c.surroundingCnt = 0 then
                match openLoopWith (Field.OpenFuel fuel)
                    { f with Cells := listSetI f.Cells coord.Y (listSetI row coord.X (some c1)) }
                    (Field.getSurroundingCoordinates
                      { f with Cells := listSetI f.Cells coord.Y (listSetI row coord.X (some c1)) }
                      coord) with
                | .loopOk f2 => .ok result f2
                | .loopPanic => .panicked
                | .loopFuelOut => .fuelOut
              else .ok result { f with
                Cells := listSetI f.Cells coord.Y (listSetI row coord.X (some c1)) }) := rfl

/-- The loop guarantee is monotone in the reference field. -/
theorem loopProgress_mono {r : LoopRes} {f2 f : Field}
    (h : loopProgress r f2) (h1 : f2.closedCount ≤ f.closedCount)
    (h2 : f2.openedCount + f2.closedCount ≤ f.openedCount + f.closedCount) :
    loopProgress r f := by
  cases r with
  | loopOk f3 =>
    obtain ⟨h3, h4⟩ := h
    exact ⟨le_trans h3 h1, le_trans h4 h2⟩
  | loopPanic => exact trivial
  | loopFuelOut => exact h.elim

/-- The central invariant: with fuel exceeding the number of `Closed`
cells, `Field.OpenFuel` never exhausts its fuel, strictly decreases the
`Closed` count on success, and leaves the field unchanged on error.  This
is the termination argument of the recursive auto-reveal: every recursive
call opens one more `Closed` cell. -/
theorem openFuel_progress : ∀ (fuel : Nat) (f : Field) (coord : Coordinate),
    f.closedCount < fuel → opensProgress (Field.OpenFuel fuel f coord) f := by
  intro fuel
  induction fuel with
  | zero => exact fun f coord h => absurd h (Nat.not_lt_zero _)
  | succ fuel ih =>
    have hloop : ∀ (coords : List Coordinate) (f : Field), f.closedCount < fuel →
        loopProgress (openLoopWith (Field.OpenFuel fuel) f coords) f := by
      intro coords
      induction coords with
      | nil => exact fun f _ => ⟨le_refl _, le_refl _⟩
      | cons cd rest ihr =>
        intro f h
        rw [openLoopWith_cons]
        split
        · exact trivial
        · exact trivial
        · rename_i target hcell
          split
          · rename_i ht
            have hopen := ih f cd h
            split
            · rename_i r f2 hres
              rw [hres] at hopen
              obtain ⟨h1, h2⟩ := hopen
              exact loopProgress_mono (ihr f2 (lt_trans h1 h)) (le_of_lt h1) h2
            · rename_i e f2 hres
              rw [hres] at hopen
              rw [hopen]
              exact ihr f h
            · exact trivial
            · rename_i hres
              rw [hres] at hopen
              exact hopen.elim
          · exact ihr f h
    intro f coord h
    rw [openFuel_succ]
    split
    · exact rfl
    · rename_i hb
      split
      · exact trivial
      · rename_i row hrow
        split
        · exact trivial
        · exact trivial
        · rename_i c hc
          split
          · exact rfl
          · rename_i result c1 hco
            obtain ⟨hclosed, hnew⟩ := cellOpen_ok hco
            have hslotc : slotIs State.Closed (some c) = true := by
              simp [slotIs, hclosed]
            have hslotc1 : slotIs State.Closed (some c1) = false := by
              rcases hnew with ⟨hc1, _⟩ | ⟨hc1, _⟩ <;> simp [slotIs, hc1]
            have hsloto : slotIs State.Opened (some c) = false := by
              simp [slotIs, hclosed]
            have hcntc := countGrid_update (slotIs State.Closed) (some c1) hrow hc
            have hcnto := countGrid_update (slotIs State.Opened) (some c1) hrow hc
            simp [hslotc, hslotc1] at hcntc
            simp [hsloto] at hcnto
            have hclosed1 : Field.closedCount { f with
                Cells := listSetI f.Cells coord.Y (listSetI row coord.X (some c1)) } + 1 =
                f.closedCount := by
              simpa [Field.closedCount] using hcntc
            have hopened1 : Field.openedCount { f with
                Cells := listSetI f.Cells coord.Y (listSetI row coord.X (some c1)) } +
                Field.closedCount { f with
                  Cells := listSetI f.Cells coord.Y (listSetI row coord.X (some c1)) } ≤
                f.openedCount + f.closedCount := by
              cases hh : slotIs State.Opened (some c1) <;> simp [hh] at hcnto <;>
                simp only [Field.openedCount, Field.closedCount] at hcntc hcnto ⊢ <;>
                omega
            split
            · exact ⟨by omega, hopened1⟩
            · split
              · have hf1fuel : Field.closedCount { f with
                    Cells := listSetI f.Cells coord.Y (listSetI row coord.X (some c1)) } <
                    fuel := by omega
                have hl := hloop
                  (Field.getSurroundingCoordinates { f with
                    Cells := listSetI f.Cells coord.Y (listSetI row coord.X (some c1)) } coord)
                  { f with Cells := listSetI f.Cells coord.Y (listSetI row coord.X (some c1)) }
                  hf1fuel
                split
                · rename_i f2 hlr
                  rw [hlr] at hl
                  obtain ⟨h3, h4⟩ := hl
                  exact ⟨by omega, le_trans h4 hopened1⟩
                · exact trivial
                · rename_i hlr
                  rw [hlr] at hl
                  exact hl.elim
              · exact ⟨by omega, hopened1⟩

theorem filterLen_disjoint {α : Type} (p q : α → Bool) (l : List α)
    (hpq : ∀ a, p a = true → q a = false) :
    (l.filter p).length + (l.filter q).length ≤ l.length := by
  induction l with
  | nil => simp
  | cons b l ih =>
    by_cases hpb : p b = true
    · have hqb := hpq b hpb
      simp [List.filter_cons, hpb, hqb]
      omega
    · have hpb2 : p b = false := by revert hpb; cases p b <;> simp
      cases hqb : q b <;> simp [List.filter_cons, hpb2, hqb] <;> omega

theorem countGrid_disjoint (p q : Option Cell → Bool)
    (cells : List (List (Option Cell))) (hpq : ∀ a, p a = true → q a = false) :
    countGrid p cells + countGrid q cells ≤ (cells.map List.length).sum := by
  induction cells with
  | nil => simp [countGrid]
  | cons row cells ih =>
    have := filterLen_disjoint p q row hpq
    simp only [countGrid, List.map_cons, List.sum_cons] at ih ⊢
    omega

theorem sum_lengths_wf {α : Type} {cells : List (List α)} {W H : Nat}
    (hlen : cells.length = H) (hrow : ∀ row ∈ cells, row.length = W) :
    (cells.map List.length).sum = H * W := by
  induction cells generalizing H with
  | nil => simp at hlen; simp [hlen.symm]
  | cons row cells ih =>
    simp only [List.length_cons] at hlen
    have h1 := hrow row (by simp)
    have h2 := ih (rfl : cells.length = cells.length)
      (fun r hr => hrow r (by simp [hr]))
    simp only [List.map_cons, List.sum_cons, h1, h2, ← hlen]
    ring

/-- C9: `Field.Open` terminates — fuel one more than the number of
`Closed` cells never runs out, because every recursive call of the
auto-reveal opens (consumes) a distinct `Closed` cell, which is also why
each cell transitions into `Opened` at most once: the number of cells
`Opened` after a call is bounded by the cells `Opened` before plus the
cells `Closed` before, and on a well-formed field that total is at most
`width*height`. -/
theorem open_terminates_bounded (f : Field) (coord : Coordinate) :
    Field.Open f coord ≠ OpRes.fuelOut ∧
    (∀ r f2, Field.Open f coord = .ok r f2 →
      f2.openedCount ≤ f.openedCount + f.closedCount) ∧
    (f.wellFormed → f.openedCount + f.closedCount ≤ f.Height.toNat * f.Width.toNat) := by
  have hp : opensProgress (Field.Open f coord) f :=
    openFuel_progress (f.closedCount + 1) f coord (Nat.lt_succ_self _)
  refine ⟨?_, ?_, ?_⟩
  · intro hcontra
    rw [hcontra] at hp
    exact hp.elim
  · intro r f2 heq
    rw [heq] at hp
    obtain ⟨h1, h2⟩ := hp
    omega
  · rintro ⟨hW, hH, hlen, hrows⟩
    have hdisj : ∀ a : Option Cell, slotIs State.Opened a = true →
        slotIs State.Closed a = false := by
      intro a
      cases a with
      | none => simp [slotIs]
      | some c => cases hs : c.state <;> simp [slotIs, hs]
    have hd := countGrid_disjoint (slotIs State.Opened) (slotIs State.Closed)
      f.Cells hdisj
    have hsum := sum_lengths_wf hlen (fun row hr => (hrows row hr).1)
    rw [hsum] at hd
    simpa [Field.openedCount, Field.closedCount] using hd

/-- Witness for C9 at the 1×1 mine-free field. -/
theorem open_terminates_bounded_witness :
    Field.Open fieldUnit ⟨0, 0⟩ ≠ OpRes.fuelOut ∧
    Field.openedCount ⟨1, 1, [[some ⟨State.Opened, false, 0⟩]]⟩ ≤
      fieldUnit.openedCount + fieldUnit.closedCount ∧
    fieldUnit.openedCount + fieldUnit.closedCount ≤
      fieldUnit.Height.toNat * fieldUnit.Width.toNat :=
  ⟨(open_terminates_bounded fieldUnit ⟨0, 0⟩).1,
   (open_terminates_bounded fieldUnit ⟨0, 0⟩).2.1 ⟨State.Opened⟩
     ⟨1, 1, [[some ⟨State.Opened, false, 0⟩]]⟩ (by decide),
   (open_terminates_bounded fieldUnit ⟨0, 0⟩).2.2 (by decide)⟩

/-! ## Lemmas about the snapshot encode/decode loops -/

theorem dropReplicate {α : Type} (n m : Nat) (a : α) :
    (List.replicate n a).drop m = List.replicate (n - m) a := by
  induction m generalizing n with
  | zero => simp
  | succ k ih =>
    cases n with
    | zero => simp
    | succ n => simpa [List.replicate_succ] using ih n

theorem jGet_cellToJson (c : Cell) :
    jGet (cellToJson c) "state" = some (.str c.state.toName) ∧
    jGet (cellToJson c) "has_mine" = some (.bool c.mine) ∧
    jGet (cellToJson c) "surrounding_count" = some (.num c.surroundingCnt) :=
  ⟨rfl, rfl, rfl⟩

theorem strToState_toName (s : State) : strToState s.toName = .ok s := by
  cases s <;> rfl

theorem strToGameState_toName (s : GameState) : strToGameState s.toName = .ok s := by
  cases s <;> rfl

theorem listSetN_append {α : Type} (done : List α) (r0 : α) (rest : List α) (v : α) :
    listSetN (done ++ r0 :: rest) done.length v = done ++ v :: rest := by
  induction done with
  | nil => rfl
  | cons d done ih => simp [listSetN, ih]

/-- The row decode loop, fed exactly the cell objects the marshal loop
writes, reconstructs every cell at its original position. -/
theorem rowLoop_fills (width : Int) :
    ∀ (cs : List Cell) (done rest : List (Option Cell)),
      done.length + cs.length ≤ width.toNat →
      (done ++ rest).length = width.toNat →
      rowLoop width done.length (cs.map cellToJson) (done ++ rest) =
        .ok (done ++ cs.map some ++ rest.drop cs.length) := by
  intro cs
  induction cs with
  | nil =>
    intro done rest h1 h2
    simp [rowLoop]
  | cons c cs ih =>
    intro done rest h1 h2
    simp only [List.length_append] at h2
    simp only [List.length_cons] at h1
    cases rest with
    | nil => exfalso; simp at h2; omega
    | cons r0 rest =>
      simp only [List.map_cons, rowLoop, (jGet_cellToJson c).1, (jGet_cellToJson c).2.1,
        (jGet_cellToJson c).2.2, jString, strToState_toName, jBool, jInt]
      rw [if_pos (by omega)]
      rw [listSetN_append]
      have h3 := ih (done ++ [some c]) rest
        (by simp; omega) (by simp at h2 ⊢; omega)
      simp only [List.length_append, List.length_cons, List.length_nil] at h3
      simpa [List.append_assoc] using h3

/-- The rows decode loop, fed rows that each decode to a known cell list,
writes each decoded row at its original index and leaves the remaining
(`nil`) rows of the `make`-allocated slice untouched. -/
theorem cellsLoop_fills (width height : Int) (hw : ¬width < 0) :
    ∀ (rjs : List Json) (css : List (List Cell)) (done rest : List (List (Option Cell))),
      List.Forall₂ (fun rj cs =>
        jArray rj = cs.map cellToJson ∧ cs.length ≤ width.toNat) rjs css →
      done.length + rjs.length ≤ height.toNat →
      (done ++ rest).length = height.toNat →
      cellsLoop width height done.length rjs (done ++ rest) =
        .ok (done ++ css.map (fun cs => cs.map some ++
          List.replicate (width.toNat - cs.length) none) ++ rest.drop rjs.length) := by
  intro rjs css done rest hfa
  induction hfa generalizing done rest with
  | nil =>
    intro h1 h2
    simp [cellsLoop]
  | cons hpair hfa ih =>
    rename_i rj cs rjs css
    intro hlen1 hlen2
    obtain ⟨hja, hcl⟩ := hpair
    simp only [List.length_cons] at hlen1
    simp only [List.length_append] at hlen2
    cases rest with
    | nil => exfalso; simp at hlen2; omega
    | cons r0 rest =>
      have hr := rowLoop_fills width cs [] (List.replicate width.toNat none)
        (by simpa using hcl) (by simp)
      simp only [List.nil_append, List.length_nil] at hr
      simp only [cellsLoop, if_neg hw, hja, hr]
      rw [if_pos (by omega)]
      rw [listSetN_append]
      have h3 := ih (done ++ [cs.map some ++
        (List.replicate width.toNat none).drop cs.length]) rest
        (by simp; omega) (by simp at hlen2 ⊢; omega)
      simp only [List.length_append, List.length_cons, List.length_nil] at h3
      simpa [List.append_assoc, dropReplicate] using h3

theorem rowToJsonCells_map_some (cs : List Cell) :
    rowToJsonCells (cs.map some) = some (cs.map cellToJson) := by
  induction cs with
  | nil => rfl
  | cons c cs ih => simp [rowToJsonCells, ih]

theorem rowToJson_map_some (cs : List Cell) :
    rowToJson (cs.map some) =
      some (if cs = [] then Json.null else .arr (cs.map cellToJson)) := by
  cases cs with
  | nil => rfl
  | cons c cs => simp [rowToJson, rowToJsonCells, rowToJsonCells_map_some]

theorem rowsToJson_map_some (css : List (List Cell)) :
    rowsToJson (css.map (fun cs => cs.map some)) =
      some (css.map (fun cs =>
        if cs = [] then Json.null else .arr (cs.map cellToJson))) := by
  induction css with
  | nil => rfl
  | cons cs css ih => simp [rowsToJson, rowToJson_map_some, ih]

theorem jArray_rowJson (cs : List Cell) :
    jArray (if cs = [] then Json.null else .arr (cs.map cellToJson)) =
      cs.map cellToJson := by
  cases cs <;> simp [jArray]

theorem allSome_row {row : List (Option Cell)} (h : ∀ oc ∈ row, oc ≠ none) :
    ∃ cs : List Cell, row = cs.map some := by
  induction row with
  | nil => exact ⟨[], rfl⟩
  | cons oc row ih =>
    obtain ⟨cs, hcs⟩ := ih (fun a ha => h a (by simp [ha]))
    cases oc with
    | none => exact absurd rfl (h none (by simp))
    | some c => exact ⟨c :: cs, by simp [hcs]⟩

theorem allSome_rows {rows : List (List (Option Cell))}
    (h : ∀ row ∈ rows, ∀ oc ∈ row, oc ≠ none) :
    ∃ css : List (List Cell), rows = css.map (fun cs => cs.map some) := by
  induction rows with
  | nil => exact ⟨[], rfl⟩
  | cons row rows ih =>
    obtain ⟨css, hcss⟩ := ih (fun r hr => h r (by simp [hr]))
    obtain ⟨cs, hcs⟩ := allSome_row (h row (by simp))
    exact ⟨cs :: css, by simp [hcss, hcs]⟩

/-- Decoding a field document whose `cells` rows decode to given cell
lists: the rows are written in order, row slots beyond a row's entries
stay `nil` (`none`), and rows beyond the given ones stay the `nil` rows
allocated by `make` — no dimension check relates them to
`width`/`height`. -/
theorem unmarshal_fills (w h : Int) (rjs : List Json) (css : List (List Cell))
    (hw : 0 ≤ w) (hh : 0 ≤ h)
    (hfa : List.Forall₂ (fun rj cs =>
      jArray rj = cs.map cellToJson ∧ cs.length ≤ w.toNat) rjs css)
    (hshort : rjs.length ≤ h.toNat) :
    Field.UnmarshalJSON (.obj [("width", .num w), ("height", .num h),
        ("cells", .arr rjs)]) =
      .ok ⟨w, h, css.map (fun cs => cs.map some ++
        List.replicate (w.toNat - cs.length) none) ++
        List.replicate (h.toNat - rjs.length) []⟩ := by
  have h1 : jGet (Json.obj [("width", .num w), ("height", .num h),
      ("cells", .arr rjs)]) "width" = some (.num w) := rfl
  have h2 : jGet (Json.obj [("width", .num w), ("height", .num h),
      ("cells", .arr rjs)]) "height" = some (.num h) := rfl
  have h3 : jGet (Json.obj [("width", .num w), ("height", .num h),
      ("cells", .arr rjs)]) "cells" = some (.arr rjs) := rfl
  have hc := cellsLoop_fills w h (by omega) rjs css []
    (List.replicate h.toNat []) hfa (by simpa using hshort) (by simp)
  simp only [List.length_nil, List.nil_append] at hc
  simp only [Field.UnmarshalJSON, h1, h2, h3, jInt, if_neg (show ¬h < 0 by omega),
    jArray, hc, dropReplicate]

/-- C6: per-cell state machine — `open()` succeeds only from `Closed`
(exploding on a mine, opening otherwise), `flag()` succeeds only from
`Closed`, and each illegal (state, operation) pair yields its own distinct
error with no state change (the error branches return before any write, so
the cell is untouched). -/
theorem cell_state_machine (c : Cell) :
    (c.state = State.Closed → c.mine = true →
      cellOpen c = .ok (⟨State.Exploded⟩, { c with state := State.Exploded })) ∧
    (c.state = State.Closed → c.mine = false →
      cellOpen c = .ok (⟨State.Opened⟩, { c with state := State.Opened })) ∧
    (c.state = State.Opened → cellOpen c = .error .openingOpened) ∧
    (c.state = State.Flagged → cellOpen c = .error .openingFlagged) ∧
    (c.state = State.Exploded → cellOpen c = .error .openingExploded) ∧
    (c.state = State.Closed →
      cellFlag c = .ok (⟨State.Flagged⟩, { c with state := State.Flagged })) ∧
    (c.state = State.Opened → cellFlag c = .error .flaggingOpened) ∧
    (c.state = State.Flagged → cellFlag c = .error .flaggingFlagged) ∧
    (c.state = State.Exploded → cellFlag c = .error .flaggingExploded) ∧
    ([Err.openingOpened, Err.openingFlagged, Err.openingExploded, Err.flaggingOpened,
      Err.flaggingFlagged, Err.flaggingExploded].Pairwise (· ≠ ·)) := by
  obtain ⟨st, mine, cnt⟩ := c
  cases st <;> cases mine <;> simp [cellOpen, cellFlag]

/-- Witness for C6 at the concrete cell `⟨Closed, mine, 0⟩`. -/
theorem cell_state_machine_witness :
    cellOpen ⟨State.Closed, true, 0⟩ =
      .ok (⟨State.Exploded⟩, ⟨State.Exploded, true, 0⟩) ∧
    cellFlag ⟨State.Flagged, false, 2⟩ = .error .flaggingFlagged :=
  ⟨(cell_state_machine ⟨State.Closed, true, 0⟩).1 rfl rfl,
   (cell_state_machine ⟨State.Flagged, false, 2⟩).2.2.2.2.2.2.2.1 rfl⟩

/-- C3 (failing input): the bounds check of `Field.Open`, `Field.Flag` and
`Field.Unflag` is literally `x+1 > f.Width || y+1 > f.Height`, which a
negative coordinate passes; the subsequent slice read then panics with an
index-out-of-range instead of returning `ErrCoordinateOutOfRange`.  Only
the non-negative out-of-range side returns the error. -/
theorem negative_coordinate_panics :
    Field.Open fieldUnit ⟨-1, 0⟩ = .panicked ∧
    Field.Open fieldUnit ⟨0, -1⟩ = .panicked ∧
    Field.Flag fieldUnit ⟨-1, 0⟩ = .panicked ∧
    Field.Unflag fieldUnit ⟨0, -1⟩ = .panicked ∧
    Field.Open fieldUnit ⟨1, 0⟩ = .err .coordinateOutOfRange fieldUnit ∧
    Field.Flag fieldUnit ⟨0, 1⟩ = .err .coordinateOutOfRange fieldUnit := by
  decide

/-- C1 (failing input): on `fieldDiagSkip`, the origin (1,2) is in range,
closed, mine-free with neighbour-mine-count 0, and its grid-adjacent
diagonal neighbour (0,1) is closed; `Field.Open` succeeds with `Opened`,
yet (0,1) is still `Closed` afterwards — the cascade's neighbour
enumeration skips the column-0 diagonals of any cell with `x == 1`
(`x > 1` guard in `getSurroundingCoordinates`). -/
theorem cascade_skips_left_diagonal :
    fieldDiagSkip.cellAt ⟨1, 2⟩ = some (some ⟨State.Closed, false, 0⟩) ∧
    fieldDiagSkip.cellAt ⟨0, 1⟩ = some (some ⟨State.Closed, false, 1⟩) ∧
    Field.Open fieldDiagSkip ⟨1, 2⟩ = .ok ⟨State.Opened⟩ fieldDiagSkipOpened ∧
    fieldDiagSkipOpened.cellAt ⟨1, 2⟩ = some (some ⟨State.Opened, false, 0⟩) ∧
    fieldDiagSkipOpened.cellAt ⟨0, 1⟩ = some (some ⟨State.Closed, false, 1⟩) := by
  decide

/-- C2 (failing input): on `gameRowCascade` (quota 2), one `Operate(Open)`
at (2,0) cascade-opens both mine-free cells, yet `opened` rises only from
0 to 1 — the increment happens once per successful `Open` call, not once
per cell — so `opened` never reaches `quota` and the game stays
`InProgress` although every non-mine cell is `Opened`. -/
theorem operate_counts_cascade_once :
    gameRowCascade.Operate .Open ⟨2, 0⟩ = .ok gameRowCascadeDone .InProgress none ∧
    gameRowCascadeDone.field.openedCount = 2 ∧
    gameRowCascadeDone.quota = 2 ∧
    gameRowCascadeDone.opened = 1 ∧
    gameRowCascadeDone.state = GameState.InProgress := by
  decide

/-- Reading back an updated slot: helper combining the get/set lemmas at
the field level. -/
theorem cellAt_update_self {cells : List (List (Option Cell))}
    {row : List (Option Cell)} {coord : Coordinate} {v : Option Cell} {w h : Int}
    (hrow : listGetI cells coord.Y = some row)
    (hc : ∃ a, listGetI row coord.X = some a) :
    Field.cellAt ⟨w, h, listSetI cells coord.Y (listSetI row coord.X v)⟩ coord = some v := by
  obtain ⟨a, ha⟩ := hc
  obtain ⟨hy, hylt⟩ := listGetI_lt hrow
  obtain ⟨hx, hxlt⟩ := listGetI_lt ha
  simp [Field.cellAt, listGetI_setI_self _ hy (by simpa [listSetN_length] using hylt),
    listGetI_setI_self _ hx (by simpa [listSetN_length] using hxlt)]

/-- Updating one slot leaves every other coordinate's slot unchanged. -/
theorem cellAt_update_ne {cells : List (List (Option Cell))}
    {row : List (Option Cell)} {coord : Coordinate} {v : Option Cell} {w h : Int}
    (hrow : listGetI cells coord.Y = some row)
    (c2 : Coordinate) (hne : c2 ≠ coord) :
    Field.cellAt ⟨w, h, listSetI cells coord.Y (listSetI row coord.X v)⟩ c2 =
      Field.cellAt ⟨w, h, cells⟩ c2 := by
  obtain ⟨X2, Y2⟩ := c2
  obtain ⟨X, Y⟩ := coord
  by_cases hy : Y2 = Y
  · subst hy
    have hxne : X ≠ X2 := by
      intro hcontra
      exact hne (by simp [hcontra])
    obtain ⟨hy0, hylt⟩ := listGetI_lt hrow
    simp only at hrow
    simp [Field.cellAt, listGetI_setI_self _ hy0 (by simpa [listSetN_length] using hylt),
      hrow, listGetI_setI_ne _ hxne]
  · have hyne : (Y : Int) ≠ Y2 := fun hcontra => hy hcontra.symm
    simp [Field.cellAt, listGetI_setI_ne _ hyne]

/-- C7: flag then unflag at an in-range `Closed` cell restores exactly the
original field — the flag sets only that cell to `Flagged`, every other
cell is untouched by both operations, and the unflag returns the field to
its exact original value. -/
theorem flag_unflag_restores (f : Field) (coord : Coordinate)
    (row : List (Option Cell)) (c : Cell)
    (hx : ¬(coord.X + 1 > f.Width ∨ coord.Y + 1 > f.Height))
    (hrow : listGetI f.Cells coord.Y = some row)
    (hc : listGetI row coord.X = some (some c))
    (hclosed : c.state = State.Closed) :
    ∃ f1, Field.Flag f coord = .ok ⟨State.Flagged⟩ f1 ∧
      f1.cellAt coord = some (some { c with state := State.Flagged }) ∧
      (∀ c2, c2 ≠ coord → f1.cellAt c2 = f.cellAt c2) ∧
      Field.Unflag f1 coord = .ok ⟨State.Closed⟩ f := by
  obtain ⟨W, H, cells⟩ := f
  simp only at hrow hc hx
  obtain ⟨hy0, hylt⟩ := listGetI_lt hrow
  obtain ⟨hx0, hxlt⟩ := listGetI_lt hc
  refine ⟨⟨W, H, listSetI cells coord.Y
    (listSetI row coord.X (some { c with state := State.Flagged }))⟩, ?_, ?_, ?_, ?_⟩
  · simp [Field.Flag, hx, hrow, hc, cellFlag, hclosed]
  · exact cellAt_update_self hrow ⟨_, hc⟩
  · intro c2 hne
    exact cellAt_update_ne hrow c2 hne
  · have hrow1 : listGetI (listSetI cells coord.Y
        (listSetI row coord.X (some { c with state := State.Flagged }))) coord.Y =
        some (listSetI row coord.X (some { c with state := State.Flagged })) :=
      listGetI_setI_self _ hy0 (by simpa [listSetN_length] using hylt)
    have hc1 : listGetI (listSetI row coord.X
        (some { c with state := State.Flagged })) coord.X =
        some (some { c with state := State.Flagged }) :=
      listGetI_setI_self _ hx0 (by simpa [listSetN_length] using hxlt)
    simp only [Field.Unflag, hx, if_false, hrow1, hc1, cellUnflag]
    obtain ⟨st, mine, cnt⟩ := c
    simp only at hclosed
    subst hclosed
    simp [listSetI_setI, listSetI_getI_self hc, listSetI_getI_self hrow]

/-- Witness for C7 on the 1×1 mine-free field at (0,0). -/
theorem flag_unflag_restores_witness :
    ∃ f1, Field.Flag fieldUnit ⟨0, 0⟩ = .ok ⟨State.Flagged⟩ f1 ∧
      f1.cellAt ⟨0, 0⟩ = some (some ⟨State.Flagged, false, 0⟩) ∧
      (∀ c2, c2 ≠ (⟨0, 0⟩ : Coordinate) → f1.cellAt c2 = fieldUnit.cellAt c2) ∧
      Field.Unflag f1 ⟨0, 0⟩ = .ok ⟨State.Closed⟩ fieldUnit :=
  flag_unflag_restores fieldUnit ⟨0, 0⟩ [some ⟨State.Closed, false, 0⟩]
    ⟨State.Closed, false, 0⟩ (by decide) rfl rfl rfl

/-- C5: opening an in-range closed mined cell sets exactly that cell to
`Exploded` and nothing else — the `Exploded` result returns before the
cascade even when `surroundingCnt` is 0 — and `Game.Operate` on that
outcome reports `Lost`. -/
theorem open_mined_explodes_only_target (f : Field) (coord : Coordinate)
    (row : List (Option Cell)) (c : Cell) (g : Game)
    (hx : ¬(coord.X + 1 > f.Width ∨ coord.Y + 1 > f.Height))
    (hrow : listGetI f.Cells coord.Y = some row)
    (hc : listGetI row coord.X = some (some c))
    (hclosed : c.state = State.Closed)
    (hmine : c.mine = true)
    (hg : g.field = f) (hgs : g.state = GameState.InProgress) :
    ∃ f1, Field.Open f coord = .ok ⟨State.Exploded⟩ f1 ∧
      f1.cellAt coord = some (some { c with state := State.Exploded }) ∧
      (∀ c2, c2 ≠ coord → f1.cellAt c2 = f.cellAt c2) ∧
      g.Operate .Open coord = .ok { g with field := f1, state := .Lost } .Lost none := by
  obtain ⟨W, H, cells⟩ := f
  simp only at hrow hc hx hg
  refine ⟨⟨W, H, listSetI cells coord.Y
    (listSetI row coord.X (some { c with state := State.Exploded }))⟩, ?_, ?_, ?_, ?_⟩
  case refine_1 =>
    simp [Field.Open, Field.OpenFuel, hx, hrow, hc, cellOpen, hclosed, hmine]
  case refine_2 => exact cellAt_update_self hrow ⟨_, hc⟩
  case refine_3 =>
    intro c2 hne
    exact cellAt_update_ne hrow c2 hne
  case refine_4 =>
    have hopen : Field.Open ⟨W, H, cells⟩ coord = .ok ⟨State.Exploded⟩
        ⟨W, H, listSetI cells coord.Y
          (listSetI row coord.X (some { c with state := State.Exploded }))⟩ := by
      simp [Field.Open, Field.OpenFuel, hx, hrow, hc, cellOpen, hclosed, hmine]
    simp [Game.Operate, hgs, hg, hopen]

/-- Witness for C5: the spec's own 1×1 mined-field example — `Open` at
(0,0) yields `Exploded` and the game is `Lost`. -/
theorem open_mined_explodes_only_target_witness :
    ∃ f1, Field.Open fieldUnitMine ⟨0, 0⟩ = .ok ⟨State.Exploded⟩ f1 ∧
      f1.cellAt ⟨0, 0⟩ = some (some ⟨State.Exploded, true, 0⟩) ∧
      (∀ c2, c2 ≠ (⟨0, 0⟩ : Coordinate) → f1.cellAt c2 = fieldUnitMine.cellAt c2) ∧
      Game.Operate ⟨fieldUnitMine, .InProgress, 1, 0⟩ .Open ⟨0, 0⟩ =
        .ok ⟨f1, .Lost, 1, 0⟩ .Lost none := by
  obtain ⟨f1, h1, h2, h3, h4⟩ := open_mined_explodes_only_target fieldUnitMine ⟨0, 0⟩
    [some ⟨State.Closed, true, 0⟩] ⟨State.Closed, true, 0⟩
    ⟨fieldUnitMine, .InProgress, 1, 0⟩ (by decide) rfl rfl rfl rfl rfl rfl
  exact ⟨f1, h1, h2, h3, h4⟩

/-- C4: `Save` followed by `Restore` reproduces an observably identical
game — same `state`, `quota`, `opened`, and every cell's exact prior
state, mine flag and neighbour count (cells are not reset to `Closed`).
Holds for every game whose field is well-formed (as all fields built by
`NewField` are). -/
theorem save_restore_roundtrip (g : Game) (hwf : g.field.wellFormed) :
    ∃ j, Game.Save g = some j ∧ Restore j = .ok g := by
  obtain ⟨⟨W, H, rows⟩, st, q, o⟩ := g
  obtain ⟨hW, hH, hlen, hrows⟩ := hwf
  simp only at hW hH hlen hrows
  obtain ⟨css, hcss⟩ := allSome_rows (fun row hr => (hrows row hr).2)
  subst hcss
  have hcsslen : css.length = H.toNat := by simpa using hlen
  have hcsw : ∀ cs ∈ css, cs.length = W.toNat := by
    intro cs hcs
    have := (hrows (cs.map some) (List.mem_map_of_mem _ hcs)).1
    simpa using this
  have hm : Field.MarshalJSON ⟨W, H, css.map (fun cs => cs.map some)⟩ =
      some (.obj [("width", .num W), ("height", .num H),
        ("cells", .arr (css.map (fun cs =>
          if cs = [] then Json.null else .arr (cs.map cellToJson))))]) := by
    simp only [Field.MarshalJSON, rowsToJson_map_some]
    rw [if_neg (by omega), if_neg (by simp [hcsslen])]
    simp [hcsslen]
  refine ⟨.obj [("field", .obj [("width", .num W), ("height", .num H),
      ("cells", .arr (css.map (fun cs =>
        if cs = [] then Json.null else .arr (cs.map cellToJson))))]),
    ("state", .str st.toName), ("quota", .num q), ("opened", .num o)], ?_, ?_⟩
  · simp [Game.Save, hm]
  · have hfa : List.Forall₂ (fun rj cs =>
        jArray rj = cs.map cellToJson ∧ cs.length ≤ W.toNat)
        (css.map (fun cs =>
          if cs = [] then Json.null else .arr (cs.map cellToJson))) css := by
      rw [List.forall₂_map_left_iff]
      rw [List.forall₂_same]
      intro cs hcs
      exact ⟨jArray_rowJson cs, le_of_eq (hcsw cs hcs)⟩
    have hu := unmarshal_fills W H _ css hW hH hfa (by simp [hcsslen])
    have hres : css.map (fun cs => cs.map some ++
        List.replicate (W.toNat - cs.length) none) =
        css.map (fun cs => cs.map some) := by
      apply List.map_congr_left
      intro cs hcs
      simp [hcsw cs hcs]
    rw [hres] at hu
    simp only [List.length_map, hcsslen, Nat.sub_self, List.replicate_zero,
      List.append_nil] at hu
    simp [Restore, jString, strToGameState_toName, jInt, hu, jGet]

/-- Witness for C4 on the repository's own 2×2 save-test game. -/
theorem save_restore_roundtrip_witness :
    ∃ j, Game.Save gameSnapshot = some j ∧ Restore j = .ok gameSnapshot :=
  save_restore_roundtrip gameSnapshot (by decide)

/-- C8: `Restore` fails with an error (and no `Game`) when any of the four
top-level fields is absent, when the `state` name is unrecognized, or when
the nested field document fails its own decode; and the nested decode
itself fails on a missing `width`/`height`/`cells`, on a missing per-cell
field, or on an unrecognized cell-state name. -/
theorem restore_error_paths (j : Json) :
    (jGet j "state" = none → Restore j = .err .gameStateMissing) ∧
    (∀ sv e, jGet j "state" = some sv → strToGameState (jString sv) = .err e →
      Restore j = .err e) ∧
    (∀ sv st, jGet j "state" = some sv → strToGameState (jString sv) = .ok st →
      jGet j "quota" = none → Restore j = .err .quotaMissing) ∧
    (∀ sv st qv, jGet j "state" = some sv → strToGameState (jString sv) = .ok st →
      jGet j "quota" = some qv → jGet j "opened" = none →
      Restore j = .err .openedMissing) ∧
    (∀ sv st qv ov, jGet j "state" = some sv → strToGameState (jString sv) = .ok st →
      jGet j "quota" = some qv → jGet j "opened" = some ov →
      jGet j "field" = none → Restore j = .err .fieldMissing) ∧
    (∀ sv st qv ov fv e, jGet j "state" = some sv →
      strToGameState (jString sv) = .ok st →
      jGet j "quota" = some qv → jGet j "opened" = some ov →
      jGet j "field" = some fv → Field.UnmarshalJSON fv = .err e →
      Restore j = .err (.fieldDecodeFailed e)) ∧
    (jGet j "width" = none → Field.UnmarshalJSON j = .err .widthMissing) ∧
    (∀ wv, jGet j "width" = some wv → jGet j "height" = none →
      Field.UnmarshalJSON j = .err .heightMissing) ∧
    (∀ wv hv, jGet j "width" = some wv → jGet j "height" = some hv →
      jGet j "cells" = none → Field.UnmarshalJSON j = .err .cellsMissing) ∧
    (∀ wv hv cv e, jGet j "width" = some wv → jGet j "height" = some hv →
      jGet j "cells" = some cv → ¬jInt hv < 0 →
      cellsLoop (jInt wv) (jInt hv) 0 (jArray cv)
        (List.replicate (jInt hv).toNat []) = .err e →
      Field.UnmarshalJSON j = .err e) ∧
    (∀ width i rest acc e, ¬width < 0 →
      rowLoop width 0 (jArray j) (List.replicate width.toNat none) = .err e →
      ∀ height : Int, cellsLoop width height i (j :: rest) acc = .err e) ∧
    (∀ width ii rest cells, jGet j "state" = none →
      rowLoop width ii (j :: rest) cells = .err .cellStateMissing) ∧
    (∀ width ii rest cells sv, jGet j "state" = some sv →
      jGet j "has_mine" = none →
      rowLoop width ii (j :: rest) cells = .err .hasMineMissing) ∧
    (∀ width ii rest cells sv mv, jGet j "state" = some sv →
      jGet j "has_mine" = some mv → jGet j "surrounding_count" = none →
      rowLoop width ii (j :: rest) cells = .err .surroundingCountMissing) ∧
    (∀ width ii rest cells sv mv cntv e, jGet j "state" = some sv →
      jGet j "has_mine" = some mv → jGet j "surrounding_count" = some cntv →
      strToState (jString sv) = .err e →
      rowLoop width ii (j :: rest) cells = .err e) := by
  refine ⟨?_, ?_, ?_, ?_, ?_, ?_, ?_, ?_, ?_, ?_, ?_, ?_, ?_, ?_, ?_⟩
  · intro h1
    simp [Restore, h1]
  · intro sv e h1 h2
    simp [Restore, h1, h2]
  · intro sv st h1 h2 h3
    simp [Restore, h1, h2, h3]
  · intro sv st qv h1 h2 h3 h4
    simp [Restore, h1, h2, h3, h4]
  · intro sv st qv ov h1 h2 h3 h4 h5
    simp [Restore, h1, h2, h3, h4, h5]
  · intro sv st qv ov fv e h1 h2 h3 h4 h5 h6
    simp [Restore, h1, h2, h3, h4, h5, h6]
  · intro h1
    simp [Field.UnmarshalJSON, h1]
  · intro wv h1 h2
    simp [Field.UnmarshalJSON, h1, h2]
  · intro wv hv h1 h2 h3
    simp [Field.UnmarshalJSON, h1, h2, h3]
  · intro wv hv cv e h1 h2 h3 h4 h5
    simp [Field.UnmarshalJSON, h1, h2, h3, h4, h5]
  · intro width i rest acc e h1 h2 height
    simp [cellsLoop, h1, h2]
  · intro width ii rest cells h1
    simp [rowLoop, h1]
  · intro width ii rest cells sv h1 h2
    simp [rowLoop, h1, h2]
  · intro width ii rest cells sv mv h1 h2 h3
    simp [rowLoop, h1, h2, h3]
  · intro width ii rest cells sv mv cntv e h1 h2 h3 h4
    simp [rowLoop, h1, h2, h3, h4]

/-- Witness for C8: the spec's missing-`quota` example fails with the
quota-missing error. -/
theorem restore_error_paths_witness :
    Restore jsonMissingQuota = .err .quotaMissing :=
  (restore_error_paths jsonMissingQuota).2.2.1 (.str "InProgress") .InProgress
    rfl rfl rfl

/-- C10: `Field.UnmarshalJSON` checks no relation between the declared
`width`/`height` and the actual `cells` array: with fewer rows than
`height`, decoding succeeds and the remaining rows of the
`make`-allocated slice stay `nil` (empty), not populated cells. -/
theorem unmarshal_short_rows (w h : Int) (rjs : List Json) (css : List (List Cell))
    (hw : 0 ≤ w) (hh : 0 ≤ h)
    (hfa : List.Forall₂ (fun rj cs =>
      jArray rj = cs.map cellToJson ∧ cs.length ≤ w.toNat) rjs css)
    (hshort : rjs.length < h.toNat) :
    ∃ f : Field, Field.UnmarshalJSON (.obj [("width", .num w), ("height", .num h),
        ("cells", .arr rjs)]) = .ok f ∧
      f.Width = w ∧ f.Height = h ∧ f.Cells.length = h.toNat ∧
      (∀ k, rjs.length ≤ k → k < h.toNat → listGetN f.Cells k = some []) := by
  have hcl := List.Forall₂.length_eq hfa
  refine ⟨_, unmarshal_fills w h rjs css hw hh hfa (le_of_lt hshort), rfl, rfl, ?_, ?_⟩
  · simp [← hcl]
    omega
  · intro k h1 h2
    have hmlen : (css.map (fun cs => cs.map some ++
        List.replicate (w.toNat - cs.length) none)).length = rjs.length := by
      simp [← hcl]
    rw [listGetN_append_right _ _ (by rw [hmlen]; omega)]
    rw [hmlen]
    exact listGetN_replicate (by omega)

/-- Witness for C10: `jsonShortRows` (height 3, one row) decodes to a
field with one populated row and two `nil` rows. -/
theorem unmarshal_short_rows_witness :
    ∃ f : Field, Field.UnmarshalJSON jsonShortRows = .ok f ∧
      f.Width = 2 ∧ f.Height = 3 ∧ f.Cells.length = (3 : Int).toNat ∧
      (∀ k, ([Json.arr [cellToJson ⟨State.Opened, false, 1⟩,
          cellToJson ⟨State.Closed, true, 0⟩]] : List Json).length ≤ k →
        k < (3 : Int).toNat → listGetN f.Cells k = some []) :=
  unmarshal_short_rows 2 3
    [Json.arr [cellToJson ⟨State.Opened, false, 1⟩, cellToJson ⟨State.Closed, true, 0⟩]]
    [[⟨State.Opened, false, 1⟩, ⟨State.Closed, true, 0⟩]]
    (by decide) (by decide)
    (List.Forall₂.cons ⟨rfl, by decide⟩ List.Forall₂.nil) (by decide)

end Minesweeper
